import Mathlib

/-!
Verification of the hierarchical statistics aggregation engine of
`scripts/pipeline.py` (kelp feature detection pipeline).

Python floats are idealised as exact rationals (`ℚ`); `np.std`, which takes a
square root, lands in `ℝ`.  A Python function that can raise an exception is
modelled as returning `Option` (raise = `none`) or `Except` (the `error`
payload being the unchanged receiver, since the `assert` in
`DetectionList.add` fires before any mutation).
-/

namespace KelpPipeline

/-- `np.mean(l)`: sum divided by length. -/
def npMean (l : List ℚ) : ℚ := l.sum / l.length

/-- `np.var(l)` (population variance, the quantity `np.std` squares-roots):
mean of squared deviations from the mean, dividing by N. -/
def npVar (l : List ℚ) : ℚ := (l.map (fun x => (x - npMean l) ^ 2)).sum / l.length

/-- `np.std(l)`: population standard deviation (divide by N, not N-1). -/
noncomputable def npStd (l : List ℚ) : ℝ := Real.sqrt (npVar l)

/-- One row of `stats.csv` (after the header), with the eight columns of
`csv_header` in `pipeline.py`.  The rendered string is abstracted to the
field values it is formatted from. -/
structure SummaryRecord where
  path : String
  detector : String
  d_num : ℕ
  f_mean : ℚ
  r_min : ℚ
  r_max : ℚ
  r_mean : ℚ
  r_std : ℝ

/-- The `path,detector,0,0,0,0,0,0` row written by the `else` branches of both
`csv_row` methods. -/
def zeroRow (path detector : String) : SummaryRecord :=
  ⟨path, detector, 0, 0, 0, 0, 0, 0⟩

/-- `Detection`: results of a single call to `detector.detect()`
(`pipeline.py`, class `Detection`). -/
structure Detection where
  path : String
  detector_name : String
  responses : List ℚ
deriving DecidableEq

/-- `Detection.csv_row`.  Python's `min`/`max` on the non-empty list are
`foldl min`/`foldl max` over head and tail (exactly `List.min?`/`List.max?`).
With `len(responses) == 0` the method returns the all-zero row, `d_num`
included. -/
noncomputable def Detection.csv_row (d : Detection) : SummaryRecord :=
  match d.responses with
  | [] => zeroRow d.path d.detector_name
  | x :: xs =>
    { path := d.path, detector := d.detector_name, d_num := 1,
      f_mean := (d.responses.length : ℚ), r_min := xs.foldl min x,
      r_max := xs.foldl max x, r_mean := npMean d.responses,
      r_std := npStd d.responses }

/-- `DetectionList`: a list of detections from one detector
(`pipeline.py`, class `DetectionList`). -/
structure DetectionList where
  path : String
  detector_name : String
  responses : List ℚ
  num_detections : ℕ
deriving DecidableEq

/-- `DetectionList.__init__`: `os.path.join(path, '**')`, empty responses,
zero count. -/
def DetectionList.init (path detector_name : String) : DetectionList :=
  ⟨path ++ "/**", detector_name, [], 0⟩

/-- The `Detection | DetectionList` union type accepted by
`DetectionList.add`. -/
inductive Mergeable where
  | det (d : Detection)
  | lst (l : DetectionList)
deriving DecidableEq

def Mergeable.detector_name : Mergeable → String
  | .det d => d.detector_name
  | .lst l => l.detector_name

def Mergeable.responses : Mergeable → List ℚ
  | .det d => d.responses
  | .lst l => l.responses

/-- The amount `DetectionList.add` adds to `num_detections`: the
`isinstance(detection, DetectionList)` branch. -/
def Mergeable.countInc : Mergeable → ℕ
  | .det _ => 1
  | .lst l => l.num_detections

/-- `DetectionList.add`.  The `assert` compares detector names before any
mutation; a failing assert raises `AssertionError` with `self` unchanged,
modelled as `Except.error self`. -/
def DetectionList.add (self : DetectionList) (other : Mergeable) :
    Except DetectionList DetectionList :=
  if other.detector_name = self.detector_name then
    Except.ok { self with
      responses := self.responses ++ other.responses,
      num_detections := self.num_detections + other.countInc }
  else
    Except.error self

/-- `DetectionList.csv_row`.  The guard is `num_detections > 0`; inside that
branch `min(self.responses)` raises `ValueError` when `responses` is empty,
modelled as `none`. -/
noncomputable def DetectionList.csv_row (dl : DetectionList) : Option SummaryRecord :=
  if dl.num_detections > 0 then
    match dl.responses with
    | [] => none
    | x :: xs =>
      some { path := dl.path, detector := dl.detector_name,
             d_num := dl.num_detections,
             f_mean := (dl.responses.length : ℚ) / (dl.num_detections : ℚ),
             r_min := xs.foldl min x, r_max := xs.foldl max x,
             r_mean := npMean dl.responses, r_std := npStd dl.responses }
  else
    some (zeroRow dl.path dl.detector_name)

/-- Total wrapper around `DetectionList.add` for contexts where the `assert`
is known to succeed: an `AssertionError` leaves the receiver unchanged. -/
def orKeep : Except DetectionList DetectionList → DetectionList
  | .ok l => l
  | .error l => l

/-!
### Merge trees

A term of `MTree` records one way of building up an aggregate: start from a
freshly constructed `DetectionList` and `add` to it, in order, Detections,
pre-existing DetectionLists, and aggregates that were themselves built the
same way.  This is exactly the set of nodes reachable from
`DetectionList.__init__` by sequences of `DetectionList.add` calls.
-/
inductive MTree where
  | empty (path : String)
  | addDet (t : MTree) (d : Detection)
  | addLst (t : MTree) (l : DetectionList)
  | addAgg (t : MTree) (s : MTree)
deriving DecidableEq

/-- Evaluate a merge tree with detector name `n` through the code's
`DetectionList.add`. -/
def MTree.build (n : String) : MTree → DetectionList
  | .empty p => DetectionList.init p n
  | .addDet t d => orKeep ((build n t).add (.det d))
  | .addLst t l => orKeep ((build n t).add (.lst l))
  | .addAgg t s => orKeep ((build n t).add (.lst (build n s)))

/-- The collection of things merged into the tree, in merge order;
intermediate aggregates flatten into their own collections. -/
def MTree.items : MTree → List Mergeable
  | .empty _ => []
  | .addDet t d => t.items ++ [.det d]
  | .addLst t l => t.items ++ [.lst l]
  | .addAgg t s => t.items ++ s.items

/-- Path argument of the root node's `__init__`. -/
def MTree.rootPath : MTree → String
  | .empty p => p
  | .addDet t _ => t.rootPath
  | .addLst t _ => t.rootPath
  | .addAgg t _ => t.rootPath

/-!
### Traversal engine

`FeaturePipeline.process_directory` / `process_image`.  The filesystem is a
tree of entries as returned by `os.scandir`, in listing order; decoded
images are opaque values (ℕ codes), the Image Source is a partial map from
paths to them, and a detector is its class name together with its pure
`detect` function.  Output streams are modelled per directory: the run
returns, for every visited directory, the list of rows written to that
directory's `stats.csv` after the header.  Any uncaught Python exception
(the `ValueError` from `min([])`, a `KeyError`, an `AssertionError`)
aborts the run: the traversal returns `none`.
-/

/-- A detector as configured in `main`: its class name and its `detect`
method (pure, per the spec's Detector Adapter contract). -/
structure Detector where
  name : String
  detect : ℕ → List ℚ

/-- The external collaborators: the configured detector list and the Image
Source (`cv2.imread` returning `None` on decode failure). -/
structure Env where
  detectors : List Detector
  load : String → Option ℕ

/-- `entry.name.lower().endswith('.jpg')`. -/
def isJpg (name : String) : Bool :=
  List.isSuffixOf ['.', 'j', 'p', 'g'] (name.data.map Char.toLower)

/-- One `os.scandir` entry: a regular file, or a subdirectory with its own
entries in listing order. -/
inductive FSEntry where
  | file (name : String)
  | subdir (name : String) (entries : List FSEntry)

/-- Python `dict` lookup. -/
def dictGet (d : List (String × DetectionList)) (k : String) : Option DetectionList :=
  match d with
  | [] => none
  | (k', v) :: rest => if k' = k then some v else dictGet rest k

/-- Python `dict` assignment: overwrite in place if the key exists (keeping
its position in insertion order), else append. -/
def dictSet (d : List (String × DetectionList)) (k : String) (v : DetectionList) :
    List (String × DetectionList) :=
  match d with
  | [] => [(k, v)]
  | (k', v') :: rest => if k' = k then (k', v) :: rest else (k', v') :: dictSet rest k v

/-- `FeaturePipeline.process_image`: console output and the list of
detections, one per configured detector; decode failure logs and returns
the empty list. -/
def process_image (env : Env) (image_path : String) : List String × List Detection :=
  match env.load image_path with
  | none => (["Open " ++ image_path, "Failed to load image: " ++ image_path], [])
  | some img =>
    (["Open " ++ image_path],
     env.detectors.map (fun dt => ⟨image_path, dt.name, dt.detect img⟩))

/-- State of one `process_directory` activation while its entry loop runs:
rows written so far to this directory's `stats.csv`, the `detection_lists`
dict, the finished streams of already-processed subdirectories, and the
console log. -/
structure TravState where
  rows : List SummaryRecord
  dict : List (String × DetectionList)
  subFiles : List (String × List SummaryRecord)
  logs : List String

/-- The `detection_lists` dict as initialised at the top of
`process_directory`. -/
def initDict (env : Env) (path : String) : List (String × DetectionList) :=
  env.detectors.foldl (fun d dt => dictSet d dt.name (DetectionList.init path dt.name)) []

def initState (env : Env) (path : String) : TravState :=
  ⟨[], initDict env path, [], []⟩

/-- Body of `for detection in detections`: write the row, then
`detection_lists[detection.detector_name].add(detection)`.  A missing key
(`KeyError`) or failing assert aborts. -/
noncomputable def addDetection (acc : TravState) (d : Detection) : Option TravState :=
  match dictGet acc.dict d.detector_name with
  | none => none
  | some dl =>
    match dl.add (.det d) with
    | .error _ => none
    | .ok dl2 =>
      some { acc with rows := acc.rows ++ [d.csv_row],
                      dict := dictSet acc.dict d.detector_name dl2 }

noncomputable def foldDetections (acc : TravState) : List Detection → Option TravState
  | [] => some acc
  | d :: ds =>
    match addDetection acc d with
    | none => none
    | some acc2 => foldDetections acc2 ds

/-- Processing of one `entry.is_file()` entry. -/
noncomputable def fileStep (env : Env) (path : String) (acc : TravState) (name : String) :
    Option TravState :=
  if isJpg name then
    match process_image env (path ++ "/" ++ name) with
    | (ls, dets) => foldDetections { acc with logs := acc.logs ++ ls } dets
  else
    some acc

/-- `for detector_name, detection_list in subdir_detection_lists.items():
detection_lists[detector_name].add(detection_list)`. -/
noncomputable def mergeSubLists (acc : TravState) :
    List (String × DetectionList) → Option TravState
  | [] => some acc
  | (k, dl) :: rest =>
    match dictGet acc.dict k with
    | none => none
    | some mine =>
      match mine.add (.lst dl) with
      | .error _ => none
      | .ok m2 => mergeSubLists { acc with dict := dictSet acc.dict k m2 } rest

/-- The `for detector_name, detection_list in detection_lists.items():
stats_file.write(detection_list.csv_row())` loop at the end of
`process_directory`; `none` when some `csv_row` raises. -/
noncomputable def aggRows : List (String × DetectionList) → Option (List SummaryRecord)
  | [] => some []
  | (_, dl) :: rest =>
    match dl.csv_row, aggRows rest with
    | some r, some rs => some (r :: rs)
    | _, _ => none

/-- The entry loop of `process_directory`. -/
noncomputable def processEntries (env : Env) (recurse : Bool) (path : String)
    (acc : TravState) : List FSEntry → Option TravState
  | [] => some acc
  | .file name :: rest =>
    match fileStep env path acc name with
    | none => none
    | some acc2 => processEntries env recurse path acc2 rest
  | .subdir name sub :: rest =>
    if recurse then
      match processEntries env recurse (path ++ "/" ++ name)
          (initState env (path ++ "/" ++ name)) sub with
      | none => none
      | some subState =>
        match aggRows subState.dict with
        | none => none
        | some ars =>
          match mergeSubLists { acc with
              subFiles := acc.subFiles ++
                ((path ++ "/" ++ name, subState.rows ++ ars) :: subState.subFiles),
              logs := acc.logs ++ subState.logs } subState.dict with
          | none => none
          | some acc2 => processEntries env recurse path acc2 rest
    else
      processEntries env recurse path acc rest
termination_by l => sizeOf l

/-- Everything a finished `process_directory` call produced: the contents of
every `stats.csv` it wrote (its own directory first), the
`detection_lists` it returns to its caller, and the console log. -/
structure DirResult where
  files : List (String × List SummaryRecord)
  lists : List (String × DetectionList)
  logs : List String

/-- `FeaturePipeline.process_directory` on a directory `path` whose
`os.scandir` listing is `entries`. -/
noncomputable def process_directory (env : Env) (recurse : Bool) (path : String)
    (entries : List FSEntry) : Option DirResult :=
  match processEntries env recurse path (initState env path) entries with
  | none => none
  | some st =>
    match aggRows st.dict with
    | none => none
    | some ars => some ⟨(path, st.rows ++ ars) :: st.subFiles, st.dict, st.logs⟩

/-- Merge trees whose merged collection consists of Detections only (every
aggregate merged in is itself built from a fresh node, i.e. reachable). -/
def MTree.detsOnly : MTree → Bool
  | .empty _ => true
  | .addDet t _ => t.detsOnly
  | .addLst _ _ => false
  | .addAgg t s => t.detsOnly && s.detsOnly

/-- Invariant of the `detection_lists` dict of the activation for directory
`path`: its keys are exactly the configured detector names, in order, and
the entry at key `k` is an aggregate named `k` scoped at `path ++ "/**"`. -/
def DictInv (env : Env) (path : String) (d : List (String × DetectionList)) : Prop :=
  d.map Prod.fst = env.detectors.map Detector.name ∧
  ∀ kv ∈ d, (kv : String × DetectionList).2.detector_name = kv.1 ∧
    kv.2.path = path ++ "/**"

/-- Invariant of the rows written so far to directory `path`'s stream:
each is a per-image row of a direct `.jpg` file of that directory. -/
def RowsInv (path : String) (rows : List SummaryRecord) : Prop :=
  ∀ r ∈ rows, ∃ nm, isJpg nm = true ∧
    (r : SummaryRecord).path = path ++ "/" ++ nm

/-- The shape the spec requires of a finished `stats.csv` stream for
directory `p`: per-image rows first, then exactly one `**` aggregate row
per configured detector, in configuration order. -/
def GoodStream (env : Env) (p : String) (stream : List SummaryRecord) : Prop :=
  ∃ body aggs, stream = body ++ aggs ∧
    aggs.map SummaryRecord.detector = env.detectors.map Detector.name ∧
    (∀ r ∈ aggs, (r : SummaryRecord).path = p ++ "/**") ∧
    (∀ r ∈ body, (r : SummaryRecord).path ≠ p ++ "/**")

/-- Combined invariant of a running activation for directory `path`. -/
def StateInv (env : Env) (path : String) (st : TravState) : Prop :=
  DictInv env path st.dict ∧ RowsInv path st.rows ∧
  ∀ ps ∈ st.subFiles, GoodStream env (ps : String × List SummaryRecord).1 ps.2

/-! ### Permutation invariance of the reported statistics -/

theorem foldl_min_perm {l₁ l₂ : List ℚ} (p : l₁.Perm l₂) (b : ℚ) :
    l₁.foldl min b = l₂.foldl min b :=
  p.foldl_eq' (fun x _ y _ z => min_right_comm z x y) b

theorem foldl_max_perm {l₁ l₂ : List ℚ} (p : l₁.Perm l₂) (b : ℚ) :
    l₁.foldl max b = l₂.foldl max b :=
  p.foldl_eq' (fun x _ y _ z => Max.right_comm z x y) b

theorem min?_perm {l₁ l₂ : List ℚ} (p : l₁.Perm l₂) : l₁.min? = l₂.min? := by
  induction p with
  | nil => rfl
  | cons x p ih => simpa [List.min?] using foldl_min_perm p x
  | swap x y l => simp [List.min?, min_comm x y]
  | trans p₁ p₂ ih₁ ih₂ => exact ih₁.trans ih₂

theorem max?_perm {l₁ l₂ : List ℚ} (p : l₁.Perm l₂) : l₁.max? = l₂.max? := by
  induction p with
  | nil => rfl
  | cons x p ih => simpa [List.max?] using foldl_max_perm p x
  | swap x y l => simp [List.max?, max_comm x y]
  | trans p₁ p₂ ih₁ ih₂ => exact ih₁.trans ih₂

theorem npMean_perm {l₁ l₂ : List ℚ} (p : l₁.Perm l₂) : npMean l₁ = npMean l₂ := by
  unfold npMean
  rw [p.sum_eq, p.length_eq]

theorem npVar_perm {l₁ l₂ : List ℚ} (p : l₁.Perm l₂) : npVar l₁ = npVar l₂ := by
  unfold npVar
  rw [npMean_perm p, ((p.map (fun x => (x - npMean l₂) ^ 2)).sum_eq :), p.length_eq]

theorem npStd_perm {l₁ l₂ : List ℚ} (p : l₁.Perm l₂) : npStd l₁ = npStd l₂ := by
  unfold npStd
  rw [npVar_perm p]

/-- The aggregate row depends only on the scope, detector name, count and
sample multiset of the `DetectionList`. -/
theorem DetectionList.csv_row_congr {a b : DetectionList} (hp : a.path = b.path)
    (hn : a.detector_name = b.detector_name) (hc : a.num_detections = b.num_detections)
    (hr : a.responses.Perm b.responses) : a.csv_row = b.csv_row := by
  unfold DetectionList.csv_row
  rw [hp, hn, hc]
  by_cases h0 : b.num_detections > 0
  · simp only [if_pos h0]
    cases hA : a.responses with
    | nil =>
      rw [hA] at hr
      rw [hr.symm.eq_nil]
    | cons x xs =>
      rw [hA] at hr
      cases hB : b.responses with
      | nil =>
        rw [hB] at hr
        exact absurd hr.eq_nil (by simp)
      | cons y ys =>
        rw [hB] at hr
        have hmin : xs.foldl min x = ys.foldl min y :=
          Option.some.inj (min?_perm hr)
        have hmax : xs.foldl max x = ys.foldl max y :=
          Option.some.inj (max?_perm hr)
        simp [Option.some.injEq, SummaryRecord.mk.injEq, hr.length_eq, hmin, hmax,
          npMean_perm hr, npStd_perm hr]
  · simp only [if_neg h0]

/-! ### Merge-tree lemmas -/

theorem add_ok_of_name (x : DetectionList) (m : Mergeable)
    (h : m.detector_name = x.detector_name) :
    x.add m = Except.ok
      { x with
        responses := x.responses ++ m.responses,
        num_detections := x.num_detections + m.countInc } := by
  simp [DetectionList.add, h]

theorem orKeep_add_detector_name (x : DetectionList) (m : Mergeable) :
    (orKeep (x.add m)).detector_name = x.detector_name := by
  unfold DetectionList.add
  by_cases h : m.detector_name = x.detector_name <;> simp [h, orKeep]

theorem orKeep_add_path (x : DetectionList) (m : Mergeable) :
    (orKeep (x.add m)).path = x.path := by
  unfold DetectionList.add
  by_cases h : m.detector_name = x.detector_name <;> simp [h, orKeep]

theorem build_detector_name (n : String) (t : MTree) :
    (MTree.build n t).detector_name = n := by
  induction t with
  | empty p => rfl
  | addDet t d ih => simp [MTree.build, orKeep_add_detector_name, ih]
  | addLst t l ih => simp [MTree.build, orKeep_add_detector_name, ih]
  | addAgg t s iht ihs => simp [MTree.build, orKeep_add_detector_name, iht]

theorem build_path (n : String) (t : MTree) :
    (MTree.build n t).path = t.rootPath ++ "/**" := by
  induction t with
  | empty p => rfl
  | addDet t d ih => simp [MTree.build, MTree.rootPath, orKeep_add_path, ih]
  | addLst t l ih => simp [MTree.build, MTree.rootPath, orKeep_add_path, ih]
  | addAgg t s iht ihs => simp [MTree.build, MTree.rootPath, orKeep_add_path, iht]

theorem build_num (n : String) (t : MTree)
    (h : ∀ m ∈ t.items, Mergeable.detector_name m = n) :
    (MTree.build n t).num_detections = (t.items.map Mergeable.countInc).sum := by
  induction t with
  | empty p => rfl
  | addDet t d ih =>
    have hd : (Mergeable.det d).detector_name = n := h _ (by simp [MTree.items])
    have ht : ∀ m ∈ t.items, Mergeable.detector_name m = n := fun m hm =>
      h m (by simp [MTree.items, hm])
    have hok := add_ok_of_name (MTree.build n t) (.det d)
      (by rw [build_detector_name]; exact hd)
    simp [MTree.build, hok, orKeep, MTree.items, ih ht, Mergeable.countInc]
  | addLst t l ih =>
    have hd : (Mergeable.lst l).detector_name = n := h _ (by simp [MTree.items])
    have ht : ∀ m ∈ t.items, Mergeable.detector_name m = n := fun m hm =>
      h m (by simp [MTree.items, hm])
    have hok := add_ok_of_name (MTree.build n t) (.lst l)
      (by rw [build_detector_name]; exact hd)
    simp [MTree.build, hok, orKeep, MTree.items, ih ht, Mergeable.countInc]
  | addAgg t s iht ihs =>
    have ht : ∀ m ∈ t.items, Mergeable.detector_name m = n := fun m hm =>
      h m (by simp [MTree.items, hm])
    have hs : ∀ m ∈ s.items, Mergeable.detector_name m = n := fun m hm =>
      h m (by simp [MTree.items, hm])
    have hok := add_ok_of_name (MTree.build n t) (.lst (MTree.build n s))
      (by rw [build_detector_name, Mergeable.detector_name, build_detector_name])
    simp [MTree.build, hok, orKeep, MTree.items, iht ht, ihs hs, Mergeable.countInc]

theorem build_resp (n : String) (t : MTree)
    (h : ∀ m ∈ t.items, Mergeable.detector_name m = n) :
    (MTree.build n t).responses = (t.items.map Mergeable.responses).flatten := by
  induction t with
  | empty p => rfl
  | addDet t d ih =>
    have hd : (Mergeable.det d).detector_name = n := h _ (by simp [MTree.items])
    have ht : ∀ m ∈ t.items, Mergeable.detector_name m = n := fun m hm =>
      h m (by simp [MTree.items, hm])
    have hok := add_ok_of_name (MTree.build n t) (.det d)
      (by rw [build_detector_name]; exact hd)
    simp [MTree.build, hok, orKeep, MTree.items, ih ht, Mergeable.responses]
  | addLst t l ih =>
    have hd : (Mergeable.lst l).detector_name = n := h _ (by simp [MTree.items])
    have ht : ∀ m ∈ t.items, Mergeable.detector_name m = n := fun m hm =>
      h m (by simp [MTree.items, hm])
    have hok := add_ok_of_name (MTree.build n t) (.lst l)
      (by rw [build_detector_name]; exact hd)
    simp [MTree.build, hok, orKeep, MTree.items, ih ht, Mergeable.responses]
  | addAgg t s iht ihs =>
    have ht : ∀ m ∈ t.items, Mergeable.detector_name m = n := fun m hm =>
      h m (by simp [MTree.items, hm])
    have hs : ∀ m ∈ s.items, Mergeable.detector_name m = n := fun m hm =>
      h m (by simp [MTree.items, hm])
    have hok := add_ok_of_name (MTree.build n t) (.lst (MTree.build n s))
      (by rw [build_detector_name, Mergeable.detector_name, build_detector_name])
    simp [MTree.build, hok, orKeep, MTree.items, iht ht, ihs hs, Mergeable.responses]

theorem detsOnly_countInc (t : MTree) (hd : t.detsOnly = true) :
    ∀ m ∈ t.items, Mergeable.countInc m = 1 := by
  induction t with
  | empty p => simp [MTree.items]
  | addDet t d ih =>
    intro m hm
    rw [MTree.items, List.mem_append] at hm
    rcases hm with hm | hm
    · exact ih (by simpa [MTree.detsOnly] using hd) m hm
    · rw [List.mem_singleton] at hm
      rw [hm]
      rfl
  | addLst t l ih => simp [MTree.detsOnly] at hd
  | addAgg t s iht ihs =>
    rw [MTree.detsOnly, Bool.and_eq_true] at hd
    intro m hm
    rw [MTree.items, List.mem_append] at hm
    rcases hm with hm | hm
    · exact iht hd.1 m hm
    · exact ihs hd.2 m hm

/-- Python's `min` on a non-empty list is a member and a lower bound. -/
theorem foldl_min_spec (x : ℚ) (xs : List ℚ) :
    xs.foldl min x ∈ x :: xs ∧ ∀ y ∈ x :: xs, xs.foldl min x ≤ y := by
  haveI : Std.Antisymm ((· : ℚ) ≤ ·) := ⟨fun h₁ h₂ => le_antisymm h₁ h₂⟩
  have h : (x :: xs).min? = some (xs.foldl min x) := rfl
  have hc := (List.min?_eq_some_iff (fun a => le_refl a) (fun a b => min_choice a b)
    (fun a b c => le_min_iff)).mp h
  exact ⟨hc.1, hc.2⟩

/-- Python's `max` on a non-empty list is a member and an upper bound. -/
theorem foldl_max_spec (x : ℚ) (xs : List ℚ) :
    xs.foldl max x ∈ x :: xs ∧ ∀ y ∈ x :: xs, y ≤ xs.foldl max x := by
  haveI : Std.Antisymm ((· : ℚ) ≤ ·) := ⟨fun h₁ h₂ => le_antisymm h₁ h₂⟩
  have h : (x :: xs).max? = some (xs.foldl max x) := rfl
  have hc := (List.max?_eq_some_iff (fun a => le_refl a) (fun a b => max_choice a b)
    (fun a b c => max_le_iff)).mp h
  exact ⟨hc.1, hc.2⟩

/-! ### Claim theorems -/

/-- C1.  The spec demands that formatting any scope whose sample sequence is
empty yields the all-zero row and never raises, for every count.  The code
honours this for `Detection.csv_row` (guard on `len(responses)`) and for a
`DetectionList` with `num_detections = 0`, but a `DetectionList` reached by
merging one zero-keypoint Detection (`num_detections = 1`, `responses = []`)
makes `DetectionList.csv_row` evaluate `min([])`, which raises `ValueError`
(modelled as `none`): the code, not the claim, is at fault. -/
theorem c1_empty_scope_formatting :
    (Detection.mk "d/a.jpg" "SIFT" []).csv_row = zeroRow "d/a.jpg" "SIFT" ∧
    (DetectionList.init "d" "SIFT").csv_row = some (zeroRow "d/**" "SIFT") ∧
    (DetectionList.init "d" "SIFT").add (Mergeable.det ⟨"d/a.jpg", "SIFT", []⟩)
      = Except.ok (DetectionList.mk "d/**" "SIFT" [] 1) ∧
    (DetectionList.mk "d/**" "SIFT" [] 1).csv_row = none :=
  ⟨rfl, rfl, rfl, rfl⟩

/-- C2.  Merging one fixed collection of Detections and DetectionLists of one
detector into a fresh aggregate, in any order and with any grouping into
intermediate fresh aggregates, produces the same count, the same multiset of
samples, and the same formatted record. -/
theorem c2_merge_order_grouping_invariant (n : String) (t₁ t₂ : MTree)
    (h₁ : ∀ m ∈ t₁.items, Mergeable.detector_name m = n)
    (h₂ : ∀ m ∈ t₂.items, Mergeable.detector_name m = n)
    (hp : t₁.rootPath = t₂.rootPath)
    (hi : (t₁.items : Multiset Mergeable) = (t₂.items : Multiset Mergeable)) :
    (MTree.build n t₁).num_detections = (MTree.build n t₂).num_detections ∧
    ((MTree.build n t₁).responses : Multiset ℚ)
      = ((MTree.build n t₂).responses : Multiset ℚ) ∧
    (MTree.build n t₁).csv_row = (MTree.build n t₂).csv_row := by
  have hip : t₁.items.Perm t₂.items := Multiset.coe_eq_coe.mp hi
  have hnum : (MTree.build n t₁).num_detections = (MTree.build n t₂).num_detections := by
    rw [build_num n t₁ h₁, build_num n t₂ h₂, (hip.map Mergeable.countInc).sum_eq]
  have hresp : (MTree.build n t₁).responses.Perm (MTree.build n t₂).responses := by
    rw [build_resp n t₁ h₁, build_resp n t₂ h₂]
    exact (hip.map Mergeable.responses).flatten
  refine ⟨hnum, Multiset.coe_eq_coe.mpr hresp, ?_⟩
  exact DetectionList.csv_row_congr (by rw [build_path, build_path, hp])
    (by rw [build_detector_name, build_detector_name]) hnum hresp

/-- Witness for C2 at a concrete collection: `{A, B}` merged as
`(fresh + A) + B` versus `fresh + (fresh2 + B) + A`. -/
theorem c2_merge_witness :
    (((MTree.empty "d").addDet ⟨"d/A.jpg", "SIFT", [1, 2]⟩).addDet
        ⟨"d/B.jpg", "SIFT", [3]⟩).items.Perm
      (((MTree.empty "d").addAgg
        ((MTree.empty "sub").addDet ⟨"d/B.jpg", "SIFT", [3]⟩)).addDet
          ⟨"d/A.jpg", "SIFT", [1, 2]⟩).items ∧
    (MTree.build "SIFT"
        (((MTree.empty "d").addDet ⟨"d/A.jpg", "SIFT", [1, 2]⟩).addDet
          ⟨"d/B.jpg", "SIFT", [3]⟩)).csv_row =
      (MTree.build "SIFT"
        (((MTree.empty "d").addAgg
          ((MTree.empty "sub").addDet ⟨"d/B.jpg", "SIFT", [3]⟩)).addDet
            ⟨"d/A.jpg", "SIFT", [1, 2]⟩)).csv_row := by
  refine ⟨by decide, ?_⟩
  have h := c2_merge_order_grouping_invariant "SIFT"
    (((MTree.empty "d").addDet ⟨"d/A.jpg", "SIFT", [1, 2]⟩).addDet
      ⟨"d/B.jpg", "SIFT", [3]⟩)
    (((MTree.empty "d").addAgg
      ((MTree.empty "sub").addDet ⟨"d/B.jpg", "SIFT", [3]⟩)).addDet
        ⟨"d/A.jpg", "SIFT", [1, 2]⟩)
    (by decide) (by decide) rfl (by decide)
  exact h.2.2

/-- C3.  Merging a zero-keypoint Detection increments the count by exactly 1
and contributes no samples — but formatting the resulting one-image
aggregate is NOT produced without error: `DetectionList.csv_row` takes the
`num_detections > 0` branch and `min([])` raises `ValueError` (`none`),
contradicting the claim's "produced without error" (and its
`f_mean = 0/1 = 0` row). -/
theorem c3_zero_keypoint_single_image :
    (DetectionList.init "imgs" "ORB").add (Mergeable.det ⟨"imgs/b.jpg", "ORB", []⟩)
      = Except.ok (DetectionList.mk "imgs/**" "ORB" [] 1) ∧
    (DetectionList.mk "imgs/**" "ORB" [] 1).responses = [] ∧
    (DetectionList.mk "imgs/**" "ORB" [] 1).num_detections = 1 ∧
    (DetectionList.mk "imgs/**" "ORB" [] 1).csv_row = none :=
  ⟨rfl, rfl, rfl, rfl⟩

/-- C4.  When the detector names match, `DetectionList.add` appends `other`'s
samples to `self`'s, increments the count by 1 for a Detection and by
`other.num_detections` for a DetectionList, and changes nothing else. -/
theorem c4_add_effect (self : DetectionList) (other : Mergeable)
    (h : other.detector_name = self.detector_name) :
    ∃ r, self.add other = Except.ok r ∧
      r.responses = self.responses ++ other.responses ∧
      r.num_detections = self.num_detections +
        (match other with | .det _ => 1 | .lst l => l.num_detections) ∧
      r.path = self.path ∧ r.detector_name = self.detector_name := by
  refine ⟨_, add_ok_of_name self other h, rfl, ?_, rfl, rfl⟩
  cases other <;> rfl

/-- Witness for C4 on a concrete merge. -/
theorem c4_add_witness :
    (Mergeable.det ⟨"w4/a.jpg", "SIFT", [1, 2]⟩).detector_name
      = (DetectionList.init "w4" "SIFT").detector_name ∧
    ∃ r, (DetectionList.init "w4" "SIFT").add
        (Mergeable.det ⟨"w4/a.jpg", "SIFT", [1, 2]⟩) = Except.ok r ∧
      r.responses = (DetectionList.init "w4" "SIFT").responses
        ++ (Mergeable.det ⟨"w4/a.jpg", "SIFT", [1, 2]⟩).responses ∧
      r.num_detections = (DetectionList.init "w4" "SIFT").num_detections +
        (match Mergeable.det (Detection.mk "w4/a.jpg" "SIFT" [1, 2]) with
          | .det _ => 1 | .lst l => l.num_detections) ∧
      r.path = (DetectionList.init "w4" "SIFT").path ∧
      r.detector_name = (DetectionList.init "w4" "SIFT").detector_name :=
  ⟨rfl, c4_add_effect (DetectionList.init "w4" "SIFT")
    (Mergeable.det ⟨"w4/a.jpg", "SIFT", [1, 2]⟩) rfl⟩

/-- C5 counterexample: a Detection with an empty response list (one processed
image, so its count is 1) is formatted with `d_num = 0`, not 1 — the literal
zero row of `Detection.csv_row`'s `else` branch. -/
theorem c5_counterexample_empty_detection :
    (Detection.mk "d/a.jpg" "SIFT" []).csv_row.d_num = 0 ∧
    ¬(Detection.mk "d/a.jpg" "SIFT" []).csv_row.d_num = 1 :=
  ⟨rfl, by simp [Detection.csv_row, zeroRow]⟩

/-- C5 amended: `d_num` equals the count for every record an aggregate
produces (in both branches), and for a Detection with non-empty responses;
a Detection with empty responses is formatted with `d_num = 0` instead of
its count 1. -/
theorem c5_dnum_amended :
    (∀ (dl : DetectionList) (r : SummaryRecord), dl.csv_row = some r →
      r.d_num = dl.num_detections) ∧
    (∀ d : Detection, d.csv_row.d_num = if d.responses.isEmpty then 0 else 1) := by
  constructor
  · intro dl r hr
    unfold DetectionList.csv_row at hr
    by_cases h0 : dl.num_detections > 0
    · rw [if_pos h0] at hr
      cases hA : dl.responses with
      | nil => rw [hA] at hr; cases hr
      | cons x xs => rw [hA] at hr; cases hr; rfl
    · rw [if_neg h0] at hr
      cases hr
      simp [zeroRow]
      omega
  · intro d
    unfold Detection.csv_row
    cases hA : d.responses with
    | nil => rfl
    | cons x xs => rfl

/-- Witness for C5's amended claim at a fresh (empty, count-0) aggregate. -/
theorem c5_dnum_witness :
    (DetectionList.init "w5" "SIFT").csv_row = some (zeroRow "w5/**" "SIFT") ∧
    (zeroRow "w5/**" "SIFT").d_num = (DetectionList.init "w5" "SIFT").num_detections :=
  ⟨rfl, c5_dnum_amended.1 (DetectionList.init "w5" "SIFT") (zeroRow "w5/**" "SIFT") rfl⟩

/-- C6.  For a non-empty sample sequence with count at least 1 the record
has `f_mean = len(samples)/count`, `r_min`/`r_max` the extrema, `r_mean`
the arithmetic mean and `r_std` the population standard deviation; in
particular the spec's two-image example `[1, 2]` + `[3]` gives
`d_num = 2, f_mean = 1.5, r_min = 1, r_max = 3, r_mean = 2,
r_std = sqrt(((1-2)^2+(2-2)^2+(3-2)^2)/3)`. -/
theorem c6_nonempty_statistics :
    (∀ dl : DetectionList, dl.responses ≠ [] → 1 ≤ dl.num_detections →
      ∃ r, dl.csv_row = some r ∧
        r.f_mean = (dl.responses.length : ℚ) / (dl.num_detections : ℚ) ∧
        (r.r_min ∈ dl.responses ∧ ∀ x ∈ dl.responses, r.r_min ≤ x) ∧
        (r.r_max ∈ dl.responses ∧ ∀ x ∈ dl.responses, x ≤ r.r_max) ∧
        r.r_mean = dl.responses.sum / (dl.responses.length : ℚ) ∧
        r.r_std = Real.sqrt (((dl.responses.map (fun x =>
          (x - dl.responses.sum / (dl.responses.length : ℚ)) ^ 2)).sum
            / (dl.responses.length : ℚ) : ℚ))) ∧
    (∀ d : Detection, d.responses ≠ [] →
      d.csv_row.d_num = 1 ∧
      d.csv_row.f_mean = (d.responses.length : ℚ) / ((1 : ℚ)) ∧
      (d.csv_row.r_min ∈ d.responses ∧ ∀ x ∈ d.responses, d.csv_row.r_min ≤ x) ∧
      (d.csv_row.r_max ∈ d.responses ∧ ∀ x ∈ d.responses, x ≤ d.csv_row.r_max) ∧
      d.csv_row.r_mean = d.responses.sum / (d.responses.length : ℚ) ∧
      d.csv_row.r_std = Real.sqrt (((d.responses.map (fun x =>
        (x - d.responses.sum / (d.responses.length : ℚ)) ^ 2)).sum
          / (d.responses.length : ℚ) : ℚ))) ∧
    (∃ l₁ l₂ : DetectionList,
      (DetectionList.init "train" "SIFT").add
        (Mergeable.det ⟨"train/A.jpg", "SIFT", [1, 2]⟩) = Except.ok l₁ ∧
      l₁.add (Mergeable.det ⟨"train/B.jpg", "SIFT", [3]⟩) = Except.ok l₂ ∧
      ∃ r, l₂.csv_row = some r ∧ r.d_num = 2 ∧ r.f_mean = 3 / 2 ∧
        r.r_min = 1 ∧ r.r_max = 3 ∧ r.r_mean = 2 ∧
        r.r_std = Real.sqrt ((((1 : ℝ) - 2) ^ 2 + ((2 : ℝ) - 2) ^ 2
          + ((3 : ℝ) - 2) ^ 2) / 3)) := by
  refine ⟨?_, ?_, ?_⟩
  · intro dl hne h1
    have h0 : dl.num_detections > 0 := h1
    cases hA : dl.responses with
    | nil => exact absurd hA hne
    | cons x xs =>
      have hrow : dl.csv_row = some
          { path := dl.path, detector := dl.detector_name,
            d_num := dl.num_detections,
            f_mean := ((x :: xs).length : ℚ) / (dl.num_detections : ℚ),
            r_min := xs.foldl min x, r_max := xs.foldl max x,
            r_mean := npMean (x :: xs), r_std := npStd (x :: xs) } := by
        simp only [DetectionList.csv_row, if_pos h0, hA]
      exact ⟨_, hrow, rfl, foldl_min_spec x xs, foldl_max_spec x xs, rfl, rfl⟩
  · intro d hne
    cases hA : d.responses with
    | nil => exact absurd hA hne
    | cons x xs =>
      have hrow : d.csv_row =
          { path := d.path, detector := d.detector_name, d_num := 1,
            f_mean := ((x :: xs).length : ℚ), r_min := xs.foldl min x,
            r_max := xs.foldl max x, r_mean := npMean (x :: xs),
            r_std := npStd (x :: xs) } := by
        simp only [Detection.csv_row, hA]
      rw [hrow]
      exact ⟨rfl, by rw [div_one], foldl_min_spec x xs, foldl_max_spec x xs,
        rfl, rfl⟩
  · refine ⟨DetectionList.mk "train/**" "SIFT" [1, 2] 1,
      DetectionList.mk "train/**" "SIFT" [1, 2, 3] 2, rfl, rfl, _, rfl,
      rfl, ?_, ?_, ?_, ?_, ?_⟩
    · norm_num
    · show [(2 : ℚ), 3].foldl min 1 = 1
      norm_num [List.foldl, min_def]
    · show [(2 : ℚ), 3].foldl max 1 = 3
      norm_num [List.foldl, max_def]
    · show npMean [1, 2, 3] = 2
      norm_num [npMean]
    · show npStd [1, 2, 3] = _
      unfold npStd
      congr 1
      have hv : npVar [1, 2, 3] = 2 / 3 := by
        norm_num [npVar, npMean]
      rw [hv]
      push_cast
      norm_num

/-- Witness for C6 on the spec's concrete aggregate. -/
theorem c6_stats_witness :
    (DetectionList.mk "w6/**" "X" [1, 2, 3] 2).responses ≠ [] ∧
    1 ≤ (DetectionList.mk "w6/**" "X" [1, 2, 3] 2).num_detections ∧
    ∃ r, (DetectionList.mk "w6/**" "X" [1, 2, 3] 2).csv_row = some r ∧
      r.f_mean = 3 / 2 := by
  obtain ⟨r, hr, hf, _⟩ := c6_nonempty_statistics.1
    (DetectionList.mk "w6/**" "X" [1, 2, 3] 2) (by decide) (by decide)
  exact ⟨by decide, by decide, r, hr, by rw [hf]; norm_num⟩

/-- C7.  `DetectionList.add` succeeds exactly when the detector names agree;
on a mismatch it raises (`DetectorMismatch`, Python `AssertionError`) with
the receiver unchanged. -/
theorem c7_add_success_iff_names_match (self : DetectionList) (other : Mergeable) :
    ((∃ r, self.add other = Except.ok r) ↔
      other.detector_name = self.detector_name) ∧
    (∀ e, self.add other = Except.error e →
      e = self ∧ other.detector_name ≠ self.detector_name) := by
  unfold DetectionList.add
  by_cases h : other.detector_name = self.detector_name <;> simp [h]

/-- Witness for C7 on a concrete mismatched merge. -/
theorem c7_mismatch_witness :
    (DetectionList.init "w7" "SIFT").add (Mergeable.det ⟨"w7/a.jpg", "ORB", [3]⟩)
      = Except.error (DetectionList.init "w7" "SIFT") ∧
    ((DetectionList.init "w7" "SIFT") = (DetectionList.init "w7" "SIFT") ∧
      (Mergeable.det ⟨"w7/a.jpg", "ORB", [3]⟩).detector_name
        ≠ (DetectionList.init "w7" "SIFT").detector_name) :=
  ⟨rfl, (c7_add_success_iff_names_match (DetectionList.init "w7" "SIFT")
    (Mergeable.det ⟨"w7/a.jpg", "ORB", [3]⟩)).2 (DetectionList.init "w7" "SIFT") rfl⟩

/-- C10.  Along any sequence of valid merges of Detections (and of aggregates
themselves so reachable) into a fresh node, `count = 0` forces the sample
sequence to be empty. -/
theorem c10_count_zero_implies_no_samples (n : String) (t : MTree)
    (hd : t.detsOnly = true)
    (hn : ∀ m ∈ t.items, Mergeable.detector_name m = n)
    (h0 : (MTree.build n t).num_detections = 0) :
    (MTree.build n t).responses = [] := by
  have h1 : (t.items.map Mergeable.countInc).sum = 0 := by
    rw [← build_num n t hn]
    exact h0
  have h2 : t.items = [] := by
    cases hitems : t.items with
    | nil => rfl
    | cons m ms =>
      rw [hitems] at h1
      have hone : Mergeable.countInc m = 1 :=
        detsOnly_countInc t hd m (by rw [hitems]; exact List.mem_cons_self m ms)
      rw [List.map_cons, List.sum_cons, hone] at h1
      omega
  rw [build_resp n t hn, h2]
  rfl

/-- Witness for C10: a fresh node has count 0 and, indeed, no samples. -/
theorem c10_fresh_witness :
    (MTree.empty "w10").detsOnly = true ∧
    (MTree.build "SIFT" (MTree.empty "w10")).num_detections = 0 ∧
    (MTree.build "SIFT" (MTree.empty "w10")).responses = [] :=
  ⟨rfl, rfl, c10_count_zero_implies_no_samples "SIFT" (MTree.empty "w10") rfl
    (by decide) rfl⟩

/-! ### Traversal lemmas -/

theorem dictGet_mem {d : List (String × DetectionList)} {k : String}
    {v : DetectionList} (h : dictGet d k = some v) : (k, v) ∈ d := by
  induction d with
  | nil => cases h
  | cons kv rest ih =>
    obtain ⟨k', v'⟩ := kv
    rw [dictGet] at h
    by_cases hk : k' = k
    · rw [if_pos hk] at h
      cases h
      rw [hk]
      exact List.mem_cons_self _ _
    · rw [if_neg hk] at h
      exact List.mem_cons_of_mem _ (ih h)

theorem dictGet_key_mem {d : List (String × DetectionList)} {k : String}
    {v : DetectionList} (h : dictGet d k = some v) : k ∈ d.map Prod.fst :=
  List.mem_map.mpr ⟨(k, v), dictGet_mem h, rfl⟩

theorem dictSet_keys {d : List (String × DetectionList)} {k : String}
    {v : DetectionList} (h : k ∈ d.map Prod.fst) :
    (dictSet d k v).map Prod.fst = d.map Prod.fst := by
  induction d with
  | nil => cases h
  | cons kv rest ih =>
    obtain ⟨k', v'⟩ := kv
    rw [dictSet]
    by_cases hk : k' = k
    · rw [if_pos hk]
      rfl
    · rw [if_neg hk]
      have hmem : k ∈ rest.map Prod.fst := by
        rcases List.mem_cons.mp h with h | h
        · exact absurd h.symm hk
        · exact h
      simp [ih hmem]

theorem dictSet_mem {d : List (String × DetectionList)} {k : String}
    {v : DetectionList} {kv : String × DetectionList}
    (h : kv ∈ dictSet d k v) : kv ∈ d ∨ kv = (k, v) := by
  induction d with
  | nil =>
    rw [dictSet] at h
    rcases List.mem_singleton.mp h with h
    exact Or.inr h
  | cons kv' rest ih =>
    obtain ⟨k', v'⟩ := kv'
    rw [dictSet] at h
    by_cases hk : k' = k
    · rw [if_pos hk] at h
      rcases List.mem_cons.mp h with h | h
      · exact Or.inr (by rw [h, hk])
      · exact Or.inl (List.mem_cons_of_mem _ h)
    · rw [if_neg hk] at h
      rcases List.mem_cons.mp h with h | h
      · exact Or.inl (by rw [h]; exact List.mem_cons_self _ _)
      · rcases ih h with h | h
        · exact Or.inl (List.mem_cons_of_mem _ h)
        · exact Or.inr h

theorem dictSet_fresh {d : List (String × DetectionList)} {k : String}
    {v : DetectionList} (h : k ∉ d.map Prod.fst) : dictSet d k v = d ++ [(k, v)] := by
  induction d with
  | nil => rfl
  | cons kv rest ih =>
    obtain ⟨k', v'⟩ := kv
    rw [dictSet]
    have hk : k' ≠ k := by
      intro hcon
      exact h (by rw [hcon]; exact List.mem_cons_self _ _)
    rw [if_neg hk]
    have hrest : k ∉ rest.map Prod.fst := fun hcon =>
      h (List.mem_cons_of_mem _ hcon)
    rw [ih hrest]
    rfl

theorem dictInv_set {env : Env} {path : String}
    {d : List (String × DetectionList)} {k : String} {v : DetectionList}
    (hi : DictInv env path d) (hk : k ∈ d.map Prod.fst)
    (hv : v.detector_name = k ∧ v.path = path ++ "/**") :
    DictInv env path (dictSet d k v) := by
  constructor
  · rw [dictSet_keys hk]
    exact hi.1
  · intro kv hm
    rcases dictSet_mem hm with h | h
    · exact hi.2 kv h
    · rw [h]
      exact hv

theorem foldl_dictSet_eq (path : String) (dets : List Detector) :
    ∀ (d₀ : List (String × DetectionList)),
      (dets.map Detector.name).Nodup →
      (∀ dt ∈ dets, dt.name ∉ d₀.map Prod.fst) →
      dets.foldl (fun d dt => dictSet d dt.name (DetectionList.init path dt.name)) d₀
        = d₀ ++ dets.map (fun dt => (dt.name, DetectionList.init path dt.name)) := by
  induction dets with
  | nil => intro d₀ _ _; simp
  | cons dt rest ih =>
    intro d₀ hnodup hfresh
    rw [List.foldl_cons, dictSet_fresh (hfresh dt (List.mem_cons_self _ _))]
    rw [List.map_cons, List.nodup_cons] at hnodup
    rw [ih _ hnodup.2 ?_]
    · simp
    · intro dt' hdt'
      rw [List.map_append, List.mem_append]
      rintro (hcon | hcon)
      · exact hfresh dt' (List.mem_cons_of_mem _ hdt') hcon
      · have h' : dt'.name = dt.name := List.mem_singleton.mp hcon
        exact hnodup.1 (h' ▸ List.mem_map_of_mem Detector.name hdt')

theorem initDict_eq (env : Env) (path : String)
    (hnodup : (env.detectors.map Detector.name).Nodup) :
    initDict env path = env.detectors.map
      (fun dt => (dt.name, DetectionList.init path dt.name)) := by
  rw [initDict, foldl_dictSet_eq path env.detectors [] hnodup (by simp)]
  rfl

theorem dictInv_init (env : Env) (path : String)
    (hnodup : (env.detectors.map Detector.name).Nodup) :
    DictInv env path (initDict env path) := by
  rw [initDict_eq env path hnodup]
  constructor
  · rw [List.map_map]
    rfl
  · intro kv hm
    rcases List.mem_map.mp hm with ⟨dt, _, hdt⟩
    rw [← hdt]
    exact ⟨rfl, rfl⟩

theorem add_ok_fields {x : DetectionList} {m : Mergeable} {y : DetectionList}
    (h : x.add m = Except.ok y) :
    y.detector_name = x.detector_name ∧ y.path = x.path ∧
    y.responses = x.responses ++ m.responses ∧
    y.num_detections = x.num_detections + m.countInc := by
  unfold DetectionList.add at h
  by_cases hc : m.detector_name = x.detector_name
  · rw [if_pos hc] at h
    cases h
    exact ⟨rfl, rfl, rfl, rfl⟩
  · rw [if_neg hc] at h
    cases h

theorem detection_csv_row_path (d : Detection) : d.csv_row.path = d.path := by
  unfold Detection.csv_row
  cases d.responses <;> rfl

theorem detectionList_csv_row_fields {dl : DetectionList} {r : SummaryRecord}
    (h : dl.csv_row = some r) : r.path = dl.path ∧ r.detector = dl.detector_name := by
  unfold DetectionList.csv_row at h
  by_cases h0 : dl.num_detections > 0
  · rw [if_pos h0] at h
    cases hA : dl.responses with
    | nil => rw [hA] at h; cases h
    | cons x xs => rw [hA] at h; cases h; exact ⟨rfl, rfl⟩
  · rw [if_neg h0] at h
    cases h
    exact ⟨rfl, rfl⟩

/-- A per-image row of a `.jpg` file never carries the directory's own
aggregate marker path. -/
theorem jpg_path_ne (path nm : String) (hj : isJpg nm = true) :
    path ++ "/" ++ nm ≠ path ++ "/**" := by
  intro h
  have hd := congrArg String.data h
  simp only [String.data_append, List.append_assoc, List.singleton_append] at hd
  have h3 := (List.append_right_inj path.data).mp hd
  have h4 : nm.data = ['*', '*'] := congrArg List.tail h3
  have h5 : nm = "**" := String.ext (by rw [h4])
  rw [h5] at hj
  exact absurd hj (by decide)

theorem aggRows_fields (path : String) (d : List (String × DetectionList)) :
    ∀ (ars : List SummaryRecord), aggRows d = some ars →
      (∀ kv ∈ d, (kv : String × DetectionList).2.detector_name = kv.1 ∧
        kv.2.path = path ++ "/**") →
      ars.map SummaryRecord.detector = d.map Prod.fst ∧
      ∀ r ∈ ars, (r : SummaryRecord).path = path ++ "/**" := by
  induction d with
  | nil =>
    intro ars h _
    cases h
    simp
  | cons kv rest ih =>
    obtain ⟨k, dl⟩ := kv
    intro ars h hv
    rw [aggRows] at h
    cases hrow : dl.csv_row with
    | none => rw [hrow] at h; cases h
    | some r =>
      cases hrest : aggRows rest with
      | none => rw [hrow, hrest] at h; cases h
      | some rs =>
        rw [hrow, hrest] at h
        cases h
        have hkv := hv (k, dl) (List.mem_cons_self _ _)
        have hr := detectionList_csv_row_fields hrow
        obtain ⟨ih1, ih2⟩ := ih rs hrest
          (fun kv hm => hv kv (List.mem_cons_of_mem _ hm))
        constructor
        · simp [ih1, hr.2]
          exact hkv.1
        · intro r' hr'
          rcases List.mem_cons.mp hr' with h | h
          · rw [h, hr.1, hkv.2]
          · exact ih2 r' h

/-- C8.  A decode failure on a `.jpg` entry logs the two console
diagnostics, writes no row, invokes no detector, leaves every aggregate of
the directory unchanged, and the traversal continues with the remaining
entries: the step is identical to skipping the file, except for the log. -/
theorem c8_decode_failure_skip (env : Env) (recurse : Bool) (path : String)
    (acc : TravState) (name : String) (rest : List FSEntry)
    (hj : isJpg name = true)
    (hload : env.load (path ++ "/" ++ name) = none) :
    process_image env (path ++ "/" ++ name) =
      (["Open " ++ (path ++ "/" ++ name),
        "Failed to load image: " ++ (path ++ "/" ++ name)], []) ∧
    processEntries env recurse path acc (.file name :: rest) =
      processEntries env recurse path
        { acc with logs := acc.logs ++
            ["Open " ++ (path ++ "/" ++ name),
             "Failed to load image: " ++ (path ++ "/" ++ name)] } rest := by
  have himg : process_image env (path ++ "/" ++ name) =
      (["Open " ++ (path ++ "/" ++ name),
        "Failed to load image: " ++ (path ++ "/" ++ name)], []) := by
    rw [process_image, hload]
  refine ⟨himg, ?_⟩
  have hstep : fileStep env path acc name = some
      { acc with logs := acc.logs ++
          ["Open " ++ (path ++ "/" ++ name),
           "Failed to load image: " ++ (path ++ "/" ++ name)] } := by
    rw [fileStep, if_pos hj, himg]
    rfl
  simp only [processEntries, hstep]

/-- Witness for C8: one unreadable image in an otherwise empty directory. -/
theorem c8_decode_failure_witness :
    isJpg "bad.jpg" = true ∧
    processEntries (Env.mk [⟨"SIFT", fun _ => [1]⟩] (fun _ => none)) true "w8"
        (initState (Env.mk [⟨"SIFT", fun _ => [1]⟩] (fun _ => none)) "w8")
        [FSEntry.file "bad.jpg"] =
      some { initState (Env.mk [⟨"SIFT", fun _ => [1]⟩] (fun _ => none)) "w8" with
        logs := ["Open " ++ ("w8" ++ "/" ++ "bad.jpg"),
          "Failed to load image: " ++ ("w8" ++ "/" ++ "bad.jpg")] } := by
  refine ⟨by decide, ?_⟩
  rw [(c8_decode_failure_skip (Env.mk [⟨"SIFT", fun _ => [1]⟩] (fun _ => none))
    true "w8" _ "bad.jpg" [] (by decide) rfl).2]
  simp [processEntries, initState]

theorem process_image_paths (env : Env) (p : String) :
    ∀ d ∈ (process_image env p).2, (d : Detection).path = p := by
  unfold process_image
  cases hload : env.load p with
  | none => simp
  | some img =>
    intro d hd
    simp only [List.mem_map] at hd
    obtain ⟨dt, _, hdt⟩ := hd
    rw [← hdt]

theorem addDetection_inv {env : Env} {path : String} {acc acc2 : TravState}
    {d : Detection} (hi : StateInv env path acc)
    (hd : ∃ nm, isJpg nm = true ∧ d.path = path ++ "/" ++ nm)
    (h : addDetection acc d = some acc2) : StateInv env path acc2 := by
  unfold addDetection at h
  cases hget : dictGet acc.dict d.detector_name with
  | none => simp only [hget] at h; cases h
  | some dl =>
    cases hadd : dl.add (.det d) with
    | error e => simp only [hget, hadd] at h; cases h
    | ok dl2 =>
      simp only [hget, hadd] at h
      cases h
      obtain ⟨hdict, hrows, hfiles⟩ := hi
      refine ⟨?_, ?_, hfiles⟩
      · have hf := add_ok_fields hadd
        have hkv := hdict.2 (d.detector_name, dl) (dictGet_mem hget)
        exact dictInv_set hdict (dictGet_key_mem hget)
          ⟨by rw [hf.1]; exact hkv.1, by rw [hf.2.1]; exact hkv.2⟩
      · intro r hr
        rw [List.mem_append] at hr
        rcases hr with hr | hr
        · exact hrows r hr
        · obtain ⟨nm, hnm, hp⟩ := hd
          rw [List.mem_singleton.mp hr]
          exact ⟨nm, hnm, by rw [detection_csv_row_path, hp]⟩

theorem foldDetections_inv {env : Env} {path : String} (nm : String)
    (hj : isJpg nm = true) :
    ∀ (dets : List Detection) (acc acc2 : TravState),
      (∀ d ∈ dets, (d : Detection).path = path ++ "/" ++ nm) →
      StateInv env path acc →
      foldDetections acc dets = some acc2 →
      StateInv env path acc2 := by
  intro dets
  induction dets with
  | nil =>
    intro acc acc2 _ hi h
    rw [foldDetections] at h
    cases h
    exact hi
  | cons d ds ih =>
    intro acc acc2 hp hi h
    rw [foldDetections] at h
    cases hstep : addDetection acc d with
    | none => rw [hstep] at h; cases h
    | some acc1 =>
      rw [hstep] at h
      exact ih acc1 acc2 (fun d2 hd2 => hp d2 (List.mem_cons_of_mem _ hd2))
        (addDetection_inv hi ⟨nm, hj, hp d (List.mem_cons_self _ _)⟩ hstep) h

theorem fileStep_inv {env : Env} {path : String} {acc acc2 : TravState}
    {name : String} (hi : StateInv env path acc)
    (h : fileStep env path acc name = some acc2) : StateInv env path acc2 := by
  unfold fileStep at h
  by_cases hj : isJpg name
  · rw [if_pos hj] at h
    rcases hpi : process_image env (path ++ "/" ++ name) with ⟨ls, dets⟩
    rw [hpi] at h
    have hpaths : ∀ d ∈ dets, (d : Detection).path = path ++ "/" ++ name := by
      intro d hd
      exact process_image_paths env (path ++ "/" ++ name) d (by rw [hpi]; exact hd)
    have hlog : StateInv env path { acc with logs := acc.logs ++ ls } := hi
    exact foldDetections_inv name hj dets _ acc2 hpaths hlog h
  · rw [if_neg hj] at h
    cases h
    exact hi

theorem mergeSubLists_inv {env : Env} {path : String} :
    ∀ (sub : List (String × DetectionList)) (acc acc2 : TravState),
      StateInv env path acc →
      mergeSubLists acc sub = some acc2 → StateInv env path acc2 := by
  intro sub
  induction sub with
  | nil =>
    intro acc acc2 hi h
    rw [mergeSubLists] at h
    cases h
    exact hi
  | cons kv rest ih =>
    intro acc acc2 hi h
    obtain ⟨k, dl⟩ := kv
    rw [mergeSubLists] at h
    cases hget : dictGet acc.dict k with
    | none => simp only [hget] at h; cases h
    | some mine =>
      cases hadd : mine.add (.lst dl) with
      | error e => simp only [hget, hadd] at h; cases h
      | ok m2 =>
        simp only [hget, hadd] at h
        apply ih _ acc2 ?_ h
        obtain ⟨hdict, hrows, hfiles⟩ := hi
        refine ⟨?_, hrows, hfiles⟩
        have hf := add_ok_fields hadd
        have hkv := hdict.2 (k, mine) (dictGet_mem hget)
        exact dictInv_set hdict (dictGet_key_mem hget)
          ⟨by rw [hf.1]; exact hkv.1, by rw [hf.2.1]; exact hkv.2⟩

theorem processEntries_inv (env : Env) (recurse : Bool)
    (hnodup : (env.detectors.map Detector.name).Nodup) :
    ∀ (N : ℕ) (entries : List FSEntry), sizeOf entries ≤ N →
      ∀ (path : String) (acc st : TravState), StateInv env path acc →
        processEntries env recurse path acc entries = some st →
        StateInv env path st := by
  intro N
  induction N with
  | zero =>
    intro entries hsz
    exact absurd hsz (by cases entries <;> simp)
  | succ N ih =>
    intro entries hsz path acc st hi h
    cases entries with
    | nil =>
      simp only [processEntries] at h
      cases h
      exact hi
    | cons e rest =>
      cases e with
      | file name =>
        simp only [processEntries] at h
        have hsz' : sizeOf rest ≤ N := by
          simp only [List.cons.sizeOf_spec] at hsz
          omega
        cases hstep : fileStep env path acc name with
        | none => rw [hstep] at h; cases h
        | some acc2 =>
          rw [hstep] at h
          exact ih rest hsz' path acc2 st (fileStep_inv hi hstep) h
      | subdir name sub =>
        simp only [processEntries] at h
        have hszr : sizeOf rest ≤ N := by
          simp only [List.cons.sizeOf_spec] at hsz
          omega
        have hszs : sizeOf sub ≤ N := by
          simp only [List.cons.sizeOf_spec, FSEntry.subdir.sizeOf_spec] at hsz
          omega
        by_cases hrec : recurse
        · rw [if_pos hrec] at h
          cases hsub : processEntries env recurse (path ++ "/" ++ name)
              (initState env (path ++ "/" ++ name)) sub with
          | none => simp only [hsub] at h; cases h
          | some subState =>
            simp only [hsub] at h
            have hsubinv : StateInv env (path ++ "/" ++ name) subState := by
              apply ih sub hszs _ _ subState ?_ hsub
              exact ⟨dictInv_init env _ hnodup,
                fun r hr => absurd hr (List.not_mem_nil r),
                fun ps hps => absurd hps (List.not_mem_nil ps)⟩
            cases hagg : aggRows subState.dict with
            | none => simp only [hagg] at h; cases h
            | some ars =>
              simp only [hagg] at h
              have hgood : GoodStream env (path ++ "/" ++ name)
                  (subState.rows ++ ars) := by
                obtain ⟨had, har⟩ := aggRows_fields (path ++ "/" ++ name)
                  subState.dict ars hagg hsubinv.1.2
                refine ⟨subState.rows, ars, rfl, ?_, har, ?_⟩
                · rw [had, hsubinv.1.1]
                · intro r hr
                  obtain ⟨nm, hnm, hp⟩ := hsubinv.2.1 r hr
                  rw [hp]
                  exact jpg_path_ne _ nm hnm
              have hacc2 : StateInv env path { acc with
                  subFiles := acc.subFiles ++
                    ((path ++ "/" ++ name, subState.rows ++ ars) :: subState.subFiles),
                  logs := acc.logs ++ subState.logs } := by
                refine ⟨hi.1, hi.2.1, ?_⟩
                intro ps hps
                rw [List.mem_append] at hps
                rcases hps with hps | hps
                · exact hi.2.2 ps hps
                · rcases List.mem_cons.mp hps with hps | hps
                  · rw [hps]
                    exact hgood
                  · exact hsubinv.2.2 ps hps
              cases hmerge : mergeSubLists { acc with
                  subFiles := acc.subFiles ++
                    ((path ++ "/" ++ name, subState.rows ++ ars) :: subState.subFiles),
                  logs := acc.logs ++ subState.logs } subState.dict with
              | none => simp only [hmerge] at h; cases h
              | some acc2 =>
                simp only [hmerge] at h
                exact ih rest hszr path acc2 st
                  (mergeSubLists_inv subState.dict _ acc2 hacc2 hmerge) h
        · rw [if_neg hrec] at h
          exact ih rest hszr path acc st hi h

/-- C9.  In the stream of every directory a run visits, every per-image row
(of that directory's own `.jpg` files) comes before all of that directory's
`**` aggregate rows, and after all entries are processed exactly one
aggregate row per configured detector is written, in configuration order. -/
theorem c9_row_before_aggregate (env : Env) (recurse : Bool) (path : String)
    (entries : List FSEntry) (out : DirResult)
    (hnodup : (env.detectors.map Detector.name).Nodup)
    (h : process_directory env recurse path entries = some out) :
    ∀ ps ∈ out.files, GoodStream env (ps : String × List SummaryRecord).1 ps.2 := by
  unfold process_directory at h
  cases hmain : processEntries env recurse path (initState env path) entries with
  | none => simp only [hmain] at h; cases h
  | some st =>
    simp only [hmain] at h
    cases hagg : aggRows st.dict with
    | none => simp only [hagg] at h; cases h
    | some ars =>
      simp only [hagg] at h
      cases h
      have hst : StateInv env path st :=
        processEntries_inv env recurse hnodup (sizeOf entries) entries le_rfl
          path _ st
          ⟨dictInv_init env path hnodup,
            fun r hr => absurd hr (List.not_mem_nil r),
            fun ps hps => absurd hps (List.not_mem_nil ps)⟩ hmain
      intro ps hps
      rcases List.mem_cons.mp hps with hps | hps
      · rw [hps]
        obtain ⟨had, har⟩ := aggRows_fields path st.dict ars hagg hst.1.2
        refine ⟨st.rows, ars, rfl, ?_, har, ?_⟩
        · rw [had, hst.1.1]
        · intro r hr
          obtain ⟨nm, hnm, hp⟩ := hst.2.1 r hr
          rw [hp]
          exact jpg_path_ne _ nm hnm
      · exact hst.2.2 ps hps

/-- Witness for C9 on a one-detector, empty-directory run. -/
theorem c9_stream_witness :
    (((Env.mk [⟨"SIFT", fun _ => [1]⟩] (fun _ => none)).detectors.map
        Detector.name).Nodup) ∧
    ∀ ps ∈ (DirResult.mk [("w9", [zeroRow "w9/**" "SIFT"])]
        [("SIFT", DetectionList.init "w9" "SIFT")] []).files,
      GoodStream (Env.mk [⟨"SIFT", fun _ => [1]⟩] (fun _ => none))
        (ps : String × List SummaryRecord).1 ps.2 := by
  refine ⟨by simp, ?_⟩
  exact c9_row_before_aggregate (Env.mk [⟨"SIFT", fun _ => [1]⟩] (fun _ => none))
    true "w9" [] _ (by simp)
    (by simp [process_directory, processEntries, initState, initDict, dictSet,
      aggRows, DetectionList.csv_row, DetectionList.init])

end KelpPipeline
